import Mathlib

set_option maxRecDepth 4096

/-!
Shallow embedding of the `hexcat` terminal client (src/main.rs, src/error.rs,
src/sections.rs) and proofs about its specification.

Machine integers are modelled as `Nat` (with explicit `% 2 ^ w` where a Rust
cast truncates); fallible or panicking code paths return `Option`;
byte payloads (`Vec<u8>`, alias `TcpMessage`) are `List Nat` whose
elements are below 256 in every reachable state.
-/

/-- A TCP payload, Rust `type TcpMessage = Vec<u8>;`. -/
abbrev TcpMessage := List Nat

/-- Rust `enum MessageOrigin { Local(TcpMessage), Remote(TcpMessage) }` from main.rs. -/
inductive MessageOrigin : Type where
  | Local : TcpMessage → MessageOrigin
  | Remote : TcpMessage → MessageOrigin
deriving DecidableEq

/-- The payload carried by a message, whichever the origin. -/
def MessageOrigin.payload : MessageOrigin → TcpMessage
  | .Local m => m
  | .Remote m => m

/-- Number of bytes of the UTF-8 encoding of a character (Rust `char` / `str` byte
counting, as used by Rust `str::len`). -/
def charUtf8Size (c : Char) : Nat :=
  if c.toNat < 0x80 then 1
  else if c.toNat < 0x800 then 2
  else if c.toNat < 0x10000 then 3
  else 4

/-- Byte length of a string, Rust `str::len` (UTF-8 byte count, not char count). -/
def strBytes (s : List Char) : Nat :=
  (s.map charUtf8Size).sum

/-- Rust `char::is_ascii_hexdigit`: `0-9`, `a-f`, `A-F`. -/
def isAsciiHexdigit (c : Char) : Bool :=
  (48 ≤ c.toNat && c.toNat ≤ 57) ||
  (97 ≤ c.toNat && c.toNat ≤ 102) ||
  (65 ≤ c.toNat && c.toNat ≤ 70)

/-- Value of a single hex digit, as assigned by Rust `u8::from_str_radix(_, 16)`.
Only meaningful on characters satisfying `isAsciiHexdigit`. -/
def hexVal (c : Char) : Nat :=
  if c.toNat ≤ 57 then c.toNat - 48
  else if 97 ≤ c.toNat then c.toNat - 87
  else c.toNat - 55

/-- Rust `u8::from_str_radix(s, 16)`: `some` of the value when `s` is a non-empty
all-hex-digit string whose value fits in a `u8`, `none` (an `Err`) otherwise. -/
def parseHexByte (cs : List Char) : Option Nat :=
  if cs.isEmpty then none
  else if cs.all isAsciiHexdigit then
    let v := cs.foldl (fun a c => a * 16 + hexVal c) 0
    if v < 256 then some v else none
  else none

/-- Rust `slice::chunks(2)`: consecutive chunks of two, last chunk possibly of one. -/
def chunksTwo {α : Type} : List α → List (List α)
  | [] => []
  | [a] => [[a]]
  | a :: b :: rest => [a, b] :: chunksTwo rest

/-- The `Input` section state from sections.rs: the in-progress character buffer, the
horizontal scroll offset and the cursor position.  The `prompt` field of the Rust
struct is the constant string `" Input: │ "` (set in `Input::new` and never
mutated); it is modelled by the constant `inputPrompt` below. -/
structure Input : Type where
  input : List Char
  scroll_offset : Nat
  cursor_position : Nat
deriving DecidableEq

/-- Rust `Input::new()` (prompt field aside, which is constant). -/
def Input.new : Input :=
  { input := [], scroll_offset := 0, cursor_position := 0 }

/-- The constant prompt string `" Input: │ "` of the Rust `Input` struct. -/
def inputPrompt : String := " Input: │ "

/-- Rust `Input::drain_user_message`.  Filters the buffer to ASCII hex digits,
rejects (returning `none` and leaving the state untouched) when their count is
odd, otherwise decodes consecutive pairs with `u8::from_str_radix(_, 16)`,
clears the buffer, resets cursor and scroll to 0 and returns the bytes.
The pair is the returned `Option<TcpMessage>` together with the state of
`self` after the call. -/
def Input.drain_user_message (s : Input) : Option TcpMessage × Input :=
  let filtered := s.input.filter isAsciiHexdigit
  if filtered.length % 2 ≠ 0 then
    (none, s)
  else
    ((some ((chunksTwo filtered).filterMap parseHexByte)),
     { input := [], scroll_offset := 0, cursor_position := 0 })

/-- Specification-side decoder: consecutive digit pairs, first digit as high
nibble.  Used to state what `drain_user_message` returns. -/
def decodePairs : List Char → List Nat
  | d1 :: d2 :: rest => (16 * hexVal d1 + hexVal d2) :: decodePairs rest
  | _ => []

/-- Rust `Input::get_cursor_x_position`: `(self.prompt.len() + self.cursor_position - 2) as u16`.
`prompt.len()` is the UTF-8 byte length of `" Input: │ "` and the `as u16` cast
truncates modulo `2 ^ 16`. -/
def Input.get_cursor_x_position (s : Input) : Nat :=
  (strBytes inputPrompt.data + s.cursor_position - 2) % 65536

/-- The cursor-column formula stated by the specification: prompt display width
`p` plus the cursor index clamped to the visible window, minus one. -/
def specCursorX (promptWidth cursorIndex visibleWindowLength : Nat) : Nat :=
  promptWidth + min cursorIndex visibleWindowLength - 1

/-- The `termion::event::Key` variants that `Input::handle_key` distinguishes. -/
inductive RKey : Type where
  | Left : RKey
  | Right : RKey
  | End : RKey
  | Home : RKey
  | Char : Char → RKey
  | Delete : RKey
  | Backspace : RKey
  | other : RKey
deriving DecidableEq

/-- Rust `Input::handle_key`.  `none` models a `todo!()` panic (the arrow, `Delete`
and `Backspace` arms); `some` is the state of `self` after a completed call.
`char::is_whitespace` (Unicode) is modelled by `Char.isWhitespace`; the only
whitespace the program itself ever feeds in is the ASCII space. -/
def Input.handle_key (s : Input) (key : RKey) : Option Input :=
  match key with
  | .Left | .Right | .End => none
  | .Home => some { s with cursor_position := 0, scroll_offset := 0 }
  | .Char c =>
      if isAsciiHexdigit c then
        some { s with input := s.input ++ [c], cursor_position := s.cursor_position + 1 }
      else if c.isWhitespace then
        some { s with input := s.input ++ [' '], cursor_position := s.cursor_position + 1 }
      else
        some s
  | .Delete | .Backspace => none
  | .other => some s

/-- An operation of the Input State Machine: a key event or a commit. -/
inductive InputOp : Type where
  | key : RKey → InputOp
  | drain : InputOp
deriving DecidableEq

/-- Run one Input operation; `none` models a panic. -/
def applyInputOp (s : Input) : InputOp → Option Input
  | .key k => s.handle_key k
  | .drain => some (s.drain_user_message).2

/-- Run a sequence of Input operations; `none` as soon as one panics. -/
def runInputOps (s : Input) : List InputOp → Option Input
  | [] => some s
  | op :: rest =>
      match applyInputOp s op with
      | none => none
      | some s2 => runInputOps s2 rest

/-- The InputBuffer invariant of the specification: cursor and scroll offset
never exceed the buffer length. -/
def InputInv (s : Input) : Prop :=
  s.cursor_position ≤ s.input.length ∧ s.scroll_offset ≤ s.input.length

/-- Outcome of one `TcpStream::read` call inside `Messages::listen`:
a successful read of the given bytes (empty list = `Ok(0)`, end of stream),
a `WouldBlock` error, or any other I/O error. -/
inductive ReadResult : Type where
  | ok : List Nat → ReadResult
  | wouldBlock : ReadResult
  | readErr : ReadResult
deriving DecidableEq

/-- A read outcome on which the `Messages::listen` loop breaks. -/
def isTermRead : ReadResult → Bool
  | .ok bytes => bytes.isEmpty
  | .wouldBlock => false
  | .readErr => true

/-- The bytes a read outcome contributes as one sent message, if any. -/
def okNonEmptyBytes : ReadResult → Option (List Nat)
  | .ok bytes => if bytes.isEmpty then none else some bytes
  | _ => none

/-- Rust `Messages::listen` run against a finite trace of read outcomes.
`message` is the loop's accumulator vector (extended with the read bytes,
sent on the channel, then truncated to length 0).  Returns the list of
messages sent on the channel and whether the loop terminated; an exhausted
trace with the loop still running returns `(sends, false)`. -/
def listenRun (message : List Nat) : List ReadResult → List (List Nat) × Bool
  | [] => ([], false)
  | .ok bytes :: rest =>
      if bytes.isEmpty then ([], true)
      else
        let tail := listenRun [] rest
        ((message ++ bytes) :: tail.1, tail.2)
  | .wouldBlock :: rest => listenRun message rest
  | .readErr :: _ => ([], true)

/-- Two lowercase hex digits of a byte, Rust `format!("\x7bbyte:02x\x7d")` for a `u8`. -/
def byteToHexChars (b : Nat) : List Char :=
  [Nat.digitChar ((b % 256) / 16), Nat.digitChar (b % 16)]

/-- The space-separated hex dump built inside `vec_to_line`:
`message.iter().map(|byte| format!(..)).collect::<Vec<String>>().join("")`. -/
def humanReadable (message : List Nat) : List Char :=
  (message.map (fun b => byteToHexChars b ++ [' '])).flatten

/-- Rust `Vec::resize(n, pad)`: truncate to `n` or pad with `pad` up to `n`. -/
def listResize {α : Type} (l : List α) (n : Nat) (pad : α) : List α :=
  l.take n ++ List.replicate (n - l.length) pad

/-- The helper `vec_to_line` nested in `Messages::paint`.  The unsigned
subtraction `width - lhs.len() - rhs.len()` (byte lengths) panics on underflow,
modelled by `none`; `String::truncate` on the all-ASCII hex dump cuts it to
that many characters (a no-op when it is already shorter). -/
def vec_to_line (width : Nat) (lhs : String) (message : TcpMessage) (rhs : String) :
    Option (List Char) :=
  if strBytes lhs.data + strBytes rhs.data ≤ width then
    some (lhs.data ++ (humanReadable message).take (width - strBytes lhs.data - strBytes rhs.data)
      ++ rhs.data)
  else
    none

/-- The row `vec_to_line` produces for one message (the closed form of its
`some` value): prefix, hex dump truncated to `width - 13` characters, trailing
space.  Both prefixes are 10 characters and 12 UTF-8 bytes. -/
def messageLine (width : Nat) : MessageOrigin → List Char
  | .Local m => "  LOCAL │ ".data ++ (humanReadable m).take (width - 13) ++ " ".data
  | .Remote m => " REMOTE │ ".data ++ (humanReadable m).take (width - 13) ++ " ".data

/-- One line of `vec_to_line` per message, with the `Local`/`Remote` prefix
chosen as in `Messages::paint`; `none` propagates a panic, as a panic anywhere
inside the Rust iterator aborts the whole `collect`. -/
def collectLines (width : Nat) : List MessageOrigin → Option (List (List Char))
  | [] => some []
  | origin :: rest =>
      let line :=
        match origin with
        | .Local m => vec_to_line width "  LOCAL │ " m " "
        | .Remote m => vec_to_line width " REMOTE │ " m " "
      match line, collectLines width rest with
      | some l, some rows => some (l :: rows)
      | _, _ => none

/-- The blank bordered filler row of `Messages::paint`: `"        │"` resized
to the width with spaces. -/
def emptyLine (width : Nat) : List Char :=
  listResize "        │".data width ' '

/-- Rust `Messages::paint` (the `Painter` impl): the last `height` messages,
newest first (`.iter().rev().take(height)`), each through `vec_to_line`, the
result resized to `height` rows with the blank bordered row.  `none` models a
panic inside `vec_to_line`. -/
def messagesPaint (messages : List MessageOrigin) (width height : Nat) :
    Option (List (List Char)) :=
  match collectLines width (messages.reverse.take height) with
  | none => none
  | some rows => some (listResize rows height (emptyLine width))

/-- The `InitError` enum from error.rs. -/
inductive InitErrorModel : Type where
  | NotEnoughArguments : InitErrorModel
  | InvalidConnectionSettings : InitErrorModel
  | CouldNotConnect : InitErrorModel
  | NoTerminal : InitErrorModel
deriving DecidableEq

/-- How far `connect()` in main.rs gets: an initialization error returned with
`?`, a panic (an `args[i]` index out of bounds), or reaching
`TcpStream::connect` with the parsed address and port. -/
inductive ConnectOutcome (α : Type) : Type where
  | initError : InitErrorModel → ConnectOutcome α
  | panicked : ConnectOutcome α
  | attemptConnect : α → Nat → ConnectOutcome α
deriving DecidableEq

/-- Rust `connect()` from main.rs, up to the `TcpStream::connect` call.
`args` is `env::args().collect()` — its first element is the program name.
The standard-library parsers `IpAddr::from_str` and `u16::from_str` are
abstract parameters; `args[1]` / `args[2]` are the panicking index operator,
`none` of `List.get?` meaning the panic. -/
def connect {α : Type} (parseIp : String → Option α) (parsePort : String → Option Nat)
    (args : List String) : ConnectOutcome α :=
  if args.length < 2 then
    .initError .NotEnoughArguments
  else
    match args[1]? with
    | none => .panicked
    | some ipArg =>
      match parseIp ipArg with
      | none => .initError .InvalidConnectionSettings
      | some ip =>
        match args[2]? with
        | none => .panicked
        | some portArg =>
          match parsePort portArg with
          | none => .initError .InvalidConnectionSettings
          | some port => .attemptConnect ip port
/-! ## Helper lemmas: the hex codec -/

/-- An ASCII hex digit is not whitespace. -/
theorem hex_not_ws (c : Char) (h : isAsciiHexdigit c = true) : c.isWhitespace = false := by
  cases hw : c.isWhitespace with
  | false => rfl
  | true =>
    exfalso
    simp only [Char.isWhitespace, Bool.or_eq_true, decide_eq_true_eq] at hw
    rcases hw with ((h1 | h1) | h1) | h1 <;> subst h1 <;> exact absurd h (by decide)

/-- The value of a hex digit is below 16. -/
theorem hexVal_lt (c : Char) (h : isAsciiHexdigit c = true) : hexVal c < 16 := by
  have h2 : ((48 ≤ c.toNat ∧ c.toNat ≤ 57) ∨ (97 ≤ c.toNat ∧ c.toNat ≤ 102)) ∨
      (65 ≤ c.toNat ∧ c.toNat ≤ 70) := by
    simpa [isAsciiHexdigit, Bool.or_eq_true, Bool.and_eq_true, decide_eq_true_eq] using h
  unfold hexVal
  rcases h2 with (⟨h1, h2⟩ | ⟨h1, h2⟩) | ⟨h1, h2⟩ <;> (repeat' split) <;> omega

/-- When every non-whitespace character of `l` is a hex digit, filtering `l` to hex
digits (as `drain_user_message` does) and discarding whitespace give the same list. -/
theorem filter_hex_eq (l : List Char)
    (h : ((l.filter (fun c => !c.isWhitespace)).all isAsciiHexdigit) = true) :
    l.filter isAsciiHexdigit = l.filter (fun c => !c.isWhitespace) := by
  induction l with
  | nil => rfl
  | cons c rest ih =>
    cases hw : c.isWhitespace with
    | true =>
      have hx : isAsciiHexdigit c = false := by
        cases hx : isAsciiHexdigit c with
        | false => rfl
        | true =>
          have h2 := hex_not_ws c hx
          rw [hw] at h2
          exact Bool.noConfusion h2
      have h2 : ((rest.filter (fun c => !c.isWhitespace)).all isAsciiHexdigit) = true := by
        simpa [List.filter_cons, hw] using h
      simp [List.filter_cons, hw, hx, ih h2]
    | false =>
      have h2 : isAsciiHexdigit c = true ∧
          ((rest.filter (fun c => !c.isWhitespace)).all isAsciiHexdigit) = true := by
        simpa [List.filter_cons, hw] using h
      simp [List.filter_cons, hw, h2.1, ih h2.2]

/-- `u8::from_str_radix` succeeds on a pair of hex digits: high nibble first. -/
theorem parse_pair (d1 d2 : Char) (h1 : isAsciiHexdigit d1 = true)
    (h2 : isAsciiHexdigit d2 = true) :
    parseHexByte [d1, d2] = some (16 * hexVal d1 + hexVal d2) := by
  have v1 := hexVal_lt d1 h1
  have v2 := hexVal_lt d2 h2
  have hfold : ([d1, d2].foldl (fun a c => a * 16 + hexVal c) 0) =
      16 * hexVal d1 + hexVal d2 := by
    simp [List.foldl]
    ring
  simp [parseHexByte, h1, h2, hfold]
  omega

/-- Decoding the two-chunks of an even-length all-hex list is `decodePairs`. -/
theorem chunks_decode (ds : List Char) :
    ds.all isAsciiHexdigit = true → ds.length % 2 = 0 →
      (chunksTwo ds).filterMap parseHexByte = decodePairs ds := by
  induction ds using chunksTwo.induct with
  | case1 => intro _ _; rfl
  | case2 a => intro _ h; simp at h
  | case3 a b rest ih =>
    intro hall heven
    simp only [List.all_cons, Bool.and_eq_true] at hall
    obtain ⟨ha, hb, hrest⟩ := hall
    simp only [chunksTwo, decodePairs, List.filterMap_cons, parse_pair a b ha hb]
    rw [ih hrest (by simp at heven; omega)]

/-- `decodePairs` produces one byte per digit pair. -/
theorem decodePairs_length (ds : List Char) : (decodePairs ds).length = ds.length / 2 := by
  induction ds using decodePairs.induct with
  | case1 d1 d2 rest ih => simp [decodePairs, ih]; omega
  | case2 ds h =>
    cases ds with
    | nil => simp [decodePairs]
    | cons a t =>
      cases t with
      | nil => simp [decodePairs]
      | cons b t2 => exact absurd rfl (h a b t2)

/-- The byte at index `i` of `decodePairs` comes from the digits at `2i` and `2i+1`. -/
theorem decodePairs_get (ds : List Char) :
    ∀ i d1 d2, ds[2 * i]? = some d1 → ds[2 * i + 1]? = some d2 →
      (decodePairs ds)[i]? = some (16 * hexVal d1 + hexVal d2) := by
  induction ds using decodePairs.induct with
  | case1 e1 e2 rest ih =>
    intro i d1 d2 h1 h2
    cases i with
    | zero =>
      simp only [Nat.mul_zero, List.getElem?_cons_zero, Nat.zero_add,
        List.getElem?_cons_succ, Option.some.injEq] at h1 h2
      subst h1
      subst h2
      simp [decodePairs]
    | succ j =>
      rw [(by ring : 2 * (j + 1) = 2 * j + 1 + 1), List.getElem?_cons_succ,
        List.getElem?_cons_succ] at h1
      rw [(by ring : 2 * (j + 1) + 1 = 2 * j + 1 + 1 + 1), List.getElem?_cons_succ,
        List.getElem?_cons_succ] at h2
      simpa [decodePairs] using ih j d1 d2 h1 h2
  | case2 ds h =>
    intro i d1 d2 h1 h2
    exfalso
    cases ds with
    | nil => simp at h1
    | cons a t =>
      cases t with
      | nil =>
        rcases i with _ | j
        · simp at h2
        · rw [(by ring : 2 * (j + 1) = 2 * j + 1 + 1), List.getElem?_cons_succ] at h1
          simp at h1
      | cons b t2 => exact absurd rfl (h a b t2)

/-! ## The commit operation (claims C1, C2, C9) -/

/-- C1: for every input buffer whose characters, after discarding whitespace, form an
even-length sequence of hex digits, `drain_user_message` returns exactly `length / 2`
bytes — the byte at index `i` being `16 * digit(2i) + digit(2i+1)`, first digit as
high nibble — and clears the buffer, resetting cursor and scroll to 0. -/
theorem drain_even_decodes (s : Input)
    (hall : ((s.input.filter (fun c => !c.isWhitespace)).all isAsciiHexdigit) = true)
    (heven : (s.input.filter (fun c => !c.isWhitespace)).length % 2 = 0) :
    s.drain_user_message =
        (some (decodePairs (s.input.filter (fun c => !c.isWhitespace))),
          { input := [], scroll_offset := 0, cursor_position := 0 }) ∧
      (decodePairs (s.input.filter (fun c => !c.isWhitespace))).length =
        (s.input.filter (fun c => !c.isWhitespace)).length / 2 ∧
      ∀ i d1 d2, (s.input.filter (fun c => !c.isWhitespace))[2 * i]? = some d1 →
        (s.input.filter (fun c => !c.isWhitespace))[2 * i + 1]? = some d2 →
        (decodePairs (s.input.filter (fun c => !c.isWhitespace)))[i]? =
          some (16 * hexVal d1 + hexVal d2) := by
  have hfe := filter_hex_eq s.input hall
  refine ⟨?_, decodePairs_length _, fun i d1 d2 h1 h2 => decodePairs_get _ i d1 d2 h1 h2⟩
  unfold Input.drain_user_message
  rw [hfe, if_neg (by omega), chunks_decode _ hall heven]

/-- C1 witness: committing the buffer `"41 42"` yields the two bytes `0x41 0x42`. -/
theorem drain_even_decodes_witness :
    Input.drain_user_message { input := "41 42".data, scroll_offset := 0, cursor_position := 5 } =
        (some (decodePairs (("41 42".data).filter (fun c => !c.isWhitespace))),
          { input := [], scroll_offset := 0, cursor_position := 0 }) ∧
      (decodePairs (("41 42".data).filter (fun c => !c.isWhitespace))).length =
        (("41 42".data).filter (fun c => !c.isWhitespace)).length / 2 ∧
      ∀ i d1 d2, (("41 42".data).filter (fun c => !c.isWhitespace))[2 * i]? = some d1 →
        (("41 42".data).filter (fun c => !c.isWhitespace))[2 * i + 1]? = some d2 →
        (decodePairs (("41 42".data).filter (fun c => !c.isWhitespace)))[i]? =
          some (16 * hexVal d1 + hexVal d2) :=
  drain_even_decodes { input := "41 42".data, scroll_offset := 0, cursor_position := 5 }
    (by decide) (by decide)

/-- C2: for every input buffer whose characters, after discarding whitespace, form an
odd-length sequence of hex digits, `drain_user_message` returns `none` and leaves the
entire input state (characters, cursor, scroll) unchanged. -/
theorem drain_odd_rejects (s : Input)
    (hall : ((s.input.filter (fun c => !c.isWhitespace)).all isAsciiHexdigit) = true)
    (hodd : (s.input.filter (fun c => !c.isWhitespace)).length % 2 = 1) :
    s.drain_user_message = (none, s) := by
  have hfe := filter_hex_eq s.input hall
  unfold Input.drain_user_message
  rw [hfe, if_pos (by omega)]

/-- C2 witness: committing the buffer `"4"` is rejected and the state kept. -/
theorem drain_odd_rejects_witness :
    Input.drain_user_message { input := ['4'], scroll_offset := 0, cursor_position := 1 } =
      (none, { input := ['4'], scroll_offset := 0, cursor_position := 1 }) :=
  drain_odd_rejects { input := ['4'], scroll_offset := 0, cursor_position := 1 }
    (by decide) (by decide)

/-- C9: on a buffer holding only whitespace (or nothing), `drain_user_message` does not
reject: zero digits is even, so it returns an empty byte sequence and clears the
buffer, resetting cursor and scroll to 0. -/
theorem drain_blank_accepts (s : Input) (hws : s.input.all Char.isWhitespace = true) :
    s.drain_user_message =
      (some [], { input := [], scroll_offset := 0, cursor_position := 0 }) := by
  have hnil : s.input.filter isAsciiHexdigit = [] := by
    rw [List.filter_eq_nil_iff]
    intro c hc
    have hw : c.isWhitespace = true := by
      have := List.all_eq_true.mp hws c hc
      simpa using this
    intro hx
    have h2 := hex_not_ws c hx
    rw [hw] at h2
    exact Bool.noConfusion h2
  unfold Input.drain_user_message
  rw [hnil]
  simp [chunksTwo]

/-- C9 witness: a buffer of two spaces commits to the empty byte sequence. -/
theorem drain_blank_accepts_witness :
    Input.drain_user_message { input := [' ', ' '], scroll_offset := 1, cursor_position := 2 } =
      (some [], { input := [], scroll_offset := 0, cursor_position := 0 }) :=
  drain_blank_accepts { input := [' ', ' '], scroll_offset := 1, cursor_position := 2 }
    (by decide)

/-! ## Helper lemmas: the log painter -/

/-- The hex dump devotes three characters to each payload byte. -/
theorem humanReadable_length (m : TcpMessage) : (humanReadable m).length = 3 * m.length := by
  induction m with
  | nil => rfl
  | cons b rest ih =>
    simp [humanReadable, byteToHexChars] at ih ⊢
    omega

/-- `Vec::resize(n, pad)` always yields length `n`. -/
theorem listResize_length {α : Type} (l : List α) (n : Nat) (p : α) :
    (listResize l n p).length = n := by
  simp [listResize]
  omega

/-- On widths of at least 13 bytes, `vec_to_line` does not panic on a `Local` row
and produces its closed form. -/
theorem vec_to_line_local (w : Nat) (hw : 13 ≤ w) (m : TcpMessage) :
    vec_to_line w "  LOCAL │ " m " " = some (messageLine w (.Local m)) := by
  have e1 : strBytes "  LOCAL │ ".data = 12 := by decide
  have e2 : strBytes " ".data = 1 := by decide
  simp only [vec_to_line, messageLine, e1, e2]
  rw [if_pos (by omega), (by omega : w - 12 - 1 = w - 13)]

/-- On widths of at least 13 bytes, `vec_to_line` does not panic on a `Remote` row
and produces its closed form. -/
theorem vec_to_line_remote (w : Nat) (hw : 13 ≤ w) (m : TcpMessage) :
    vec_to_line w " REMOTE │ " m " " = some (messageLine w (.Remote m)) := by
  have e1 : strBytes " REMOTE │ ".data = 12 := by decide
  have e2 : strBytes " ".data = 1 := by decide
  simp only [vec_to_line, messageLine, e1, e2]
  rw [if_pos (by omega), (by omega : w - 12 - 1 = w - 13)]

/-- On widths of at least 13, collecting the message rows never panics. -/
theorem collectLines_eq (w : Nat) (hw : 13 ≤ w) (l : List MessageOrigin) :
    collectLines w l = some (l.map (messageLine w)) := by
  induction l with
  | nil => rfl
  | cons o rest ih =>
    cases o with
    | Local m => simp [collectLines, vec_to_line_local w hw m, ih]
    | Remote m => simp [collectLines, vec_to_line_remote w hw m, ih]

/-- Closed form of `Messages::paint` on widths of at least 13. -/
theorem paint_eq (msgs : List MessageOrigin) (w h : Nat) (hw : 13 ≤ w) :
    messagesPaint msgs w h =
      some (listResize ((msgs.reverse.take h).map (messageLine w)) h (emptyLine w)) := by
  simp [messagesPaint, collectLines_eq w hw]

/-- The length of a rendered message row: the 11 prefix-and-border characters plus
the hex dump truncated to the `w - 13` byte budget. -/
theorem messageLine_length (w : Nat) (hw : 13 ≤ w) (o : MessageOrigin) :
    (messageLine w o).length = 11 + min (3 * o.payload.length) (w - 13) := by
  have e1 : ("  LOCAL │ ".data).length = 10 := by decide
  have e2 : (" REMOTE │ ".data).length = 10 := by decide
  have e3 : (" ".data).length = 1 := by decide
  cases o with
  | Local m =>
    simp [messageLine, MessageOrigin.payload, e1, e3, humanReadable_length]
    omega
  | Remote m =>
    simp [messageLine, MessageOrigin.payload, e2, e3, humanReadable_length]
    omega

/-! ## The log painter (claims C3, C4, C10) -/

/-- C3, amended: for every message log and every size with width at least 13,
`Messages::paint` returns exactly `height` rows, and the blank filler rows are
exactly `width` characters; but a row produced for a message is NOT padded to the
width — it has exactly `11 + min (3 * payload length) (width - 13)` characters,
which is at most `width - 2` (the prefix byte length 12 exceeds its display
width 10, and no right-padding is applied). -/
theorem paint_shape (msgs : List MessageOrigin) (w h : Nat) (hw : 13 ≤ w) :
    ∃ out : List (List Char), messagesPaint msgs w h = some out ∧
      out.length = h ∧
      (emptyLine w).length = w ∧
      (∀ i, min h msgs.length ≤ i → i < h → out[i]? = some (emptyLine w)) ∧
      (∀ (i : Nat) (o : MessageOrigin), (msgs.reverse.take h)[i]? = some o →
        ∃ row : List Char, out[i]? = some row ∧
          row.length = 11 + min (3 * o.payload.length) (w - 13) ∧
          row.length + 2 ≤ w) := by
  have hrows : ((msgs.reverse.take h).map (messageLine w)).length = min h msgs.length := by
    simp [List.length_take]
  have hle : ((msgs.reverse.take h).map (messageLine w)).length ≤ h := by
    rw [hrows]; omega
  have hsplit : listResize ((msgs.reverse.take h).map (messageLine w)) h (emptyLine w) =
      ((msgs.reverse.take h).map (messageLine w)) ++
        List.replicate (h - min h msgs.length) (emptyLine w) := by
    unfold listResize
    rw [List.take_of_length_le hle, hrows]
  refine ⟨_, paint_eq msgs w h hw, listResize_length _ _ _, listResize_length _ _ _, ?_, ?_⟩
  · intro i hlow hhi
    rw [hsplit, List.getElem?_append_right (by rw [hrows]; exact hlow)]
    rw [hrows, List.getElem?_replicate, if_pos (by omega)]
  · intro i o hio
    have hi : i < min h msgs.length := by
      have h2 := (List.getElem?_eq_some.mp hio).1
      simpa [List.length_take] using h2
    refine ⟨messageLine w o, ?_, messageLine_length w hw o, ?_⟩
    · rw [hsplit, List.getElem?_append, if_pos (by rw [hrows]; exact hi),
        List.getElem?_map, hio]
      rfl
    · rw [messageLine_length w hw o]
      omega

/-- C3 witness: the shape theorem applied at width 40, height 1, and one `Local`
message of 30 bytes `0x3c` (the spec's scenario). -/
theorem paint_shape_witness :
    (13 : Nat) ≤ 40 ∧
    (∃ out : List (List Char), messagesPaint [.Local (List.replicate 30 60)] 40 1 = some out ∧
      out.length = 1 ∧
      (emptyLine 40).length = 40 ∧
      (∀ i, min 1 [MessageOrigin.Local (List.replicate 30 60)].length ≤ i → i < 1 →
        out[i]? = some (emptyLine 40)) ∧
      (∀ (i : Nat) (o : MessageOrigin),
        ([MessageOrigin.Local (List.replicate 30 60)].reverse.take 1)[i]? = some o →
        ∃ row : List Char, out[i]? = some row ∧
          row.length = 11 + min (3 * o.payload.length) (40 - 13) ∧
          row.length + 2 ≤ 40)) :=
  ⟨by decide, paint_shape [.Local (List.replicate 30 60)] 40 1 (by decide)⟩

/-- C3 counterexample: at terminal width 40, a `Local` message with a 30-byte payload
renders as a row of 38 characters, not 40 — the claim "each row is exactly width
characters" fails (the row is truncated to a 27-byte budget and never padded). -/
theorem paint_row_width_cex :
    (messagesPaint [.Local (List.replicate 30 60)] 40 1).map (fun out => out.map List.length) =
      some [38] ∧ (38 : Nat) ≠ 40 := by
  constructor
  · decide
  · decide

/-- C4, amended: for every message log and width at least 13, the message rows of
`Messages::paint` are the most recent `height` messages in REVERSE arrival order —
the newest message is the FIRST row, not the last: row `i` renders
`msgs.reverse.take height` at index `i`. -/
theorem paint_newest_first (msgs : List MessageOrigin) (w h : Nat) (hw : 13 ≤ w) :
    ∃ out : List (List Char), messagesPaint msgs w h = some out ∧
      out.take (min h msgs.length) = (msgs.reverse.take h).map (messageLine w) := by
  refine ⟨_, paint_eq msgs w h hw, ?_⟩
  have hrows : ((msgs.reverse.take h).map (messageLine w)).length = min h msgs.length := by
    simp [List.length_take]
  have hle : ((msgs.reverse.take h).map (messageLine w)).length ≤ h := by
    rw [hrows]; omega
  unfold listResize
  rw [List.take_of_length_le hle, ← hrows, List.take_left]

/-- C4 witness: the ordering theorem applied at width 20, height 2, and the
two-message log `[Local [1], Local [2]]`. -/
theorem paint_newest_first_witness :
    (13 : Nat) ≤ 20 ∧
    (∃ out : List (List Char),
      messagesPaint [.Local [1], .Local [2]] 20 2 = some out ∧
      out.take (min 2 [MessageOrigin.Local [1], MessageOrigin.Local [2]].length) =
        ([MessageOrigin.Local [1], MessageOrigin.Local [2]].reverse.take 2).map
          (messageLine 20)) :=
  ⟨by decide, paint_newest_first [.Local [1], .Local [2]] 20 2 (by decide)⟩

/-- C4 counterexample: the log `[Local [1], Local [2], Local [3]]` is longer than the
visible height 2; at width 20 the painter returns the newest message `[3]` as the
FIRST row and the older `[2]` as the second, and the two rows are distinct — so the
output is not the most recent two messages in arrival order with the newest last,
which would be the row for `[2]` followed by the row for `[3]`. -/
theorem paint_order_cex :
    messagesPaint [.Local [1], .Local [2], .Local [3]] 20 2 =
      some [messageLine 20 (.Local [3]), messageLine 20 (.Local [2])] ∧
    messageLine 20 (.Local [3]) ≠ messageLine 20 (.Local [2]) ∧
    messagesPaint [.Local [1], .Local [2], .Local [3]] 20 2 ≠
      some [messageLine 20 (.Local [2]), messageLine 20 (.Local [3])] := by
  refine ⟨by decide, by decide, by decide⟩

/-- C10: for every width below 13 bytes (the `"  LOCAL │ "` / `" REMOTE │ "` prefix
is 12 UTF-8 bytes, the trailing border 1), a positive height and a non-empty log,
`Messages::paint` does not return a grid: the unsigned subtraction
`width - lhs.len() - rhs.len()` in `vec_to_line` underflows and panics. -/
theorem paint_narrow_panics (msgs : List MessageOrigin) (w h : Nat)
    (hw : w < 13) (hh : 1 ≤ h) (hm : msgs ≠ []) :
    messagesPaint msgs w h = none := by
  obtain ⟨a, t, ht⟩ : ∃ a t, msgs.reverse = a :: t := by
    cases hr : msgs.reverse with
    | nil => exact absurd (List.reverse_eq_nil_iff.mp hr) hm
    | cons a t => exact ⟨a, t, rfl⟩
  obtain ⟨k, hk⟩ : ∃ k, h = k + 1 := ⟨h - 1, by omega⟩
  subst hk
  unfold messagesPaint
  rw [ht, List.take_succ_cons]
  cases a with
  | Local m =>
    have e1 : strBytes "  LOCAL │ ".data = 12 := by decide
    have e2 : strBytes " ".data = 1 := by decide
    have hline : vec_to_line w "  LOCAL │ " m " " = none := by
      unfold vec_to_line
      rw [if_neg (by omega)]
    simp [collectLines, hline]
  | Remote m =>
    have e1 : strBytes " REMOTE │ ".data = 12 := by decide
    have e2 : strBytes " ".data = 1 := by decide
    have hline : vec_to_line w " REMOTE │ " m " " = none := by
      unfold vec_to_line
      rw [if_neg (by omega)]
    simp [collectLines, hline]

/-- C10 witness: painting one empty `Local` message at width 12, height 1 panics. -/
theorem paint_narrow_panics_witness :
    (12 : Nat) < 13 ∧ (1 : Nat) ≤ 1 ∧ [MessageOrigin.Local []] ≠ [] ∧
    messagesPaint [.Local []] 12 1 = none :=
  ⟨by decide, by decide, by decide,
    paint_narrow_panics [.Local []] 12 1 (by decide) (by decide) (by decide)⟩

/-! ## The connection reader loop (claim C6) -/

/-- C6: the `Messages::listen` loop ignores would-block errors without touching any
state, and on any finite read trace it sends exactly one message per non-empty
successful read — containing exactly the bytes of that read — up to (and excluding)
the first terminating read, and it terminates exactly when the trace contains a
zero-byte read or a non-would-block error. -/
theorem listen_spec :
    (∀ message rest, listenRun message (.wouldBlock :: rest) = listenRun message rest) ∧
    ∀ trace, listenRun [] trace =
      ((trace.takeWhile (fun r => !isTermRead r)).filterMap okNonEmptyBytes,
        trace.any isTermRead) := by
  constructor
  · intro message rest
    rfl
  · intro trace
    induction trace with
    | nil => rfl
    | cons r rest ih =>
      cases r with
      | ok bytes =>
        cases bytes with
        | nil => simp [listenRun, isTermRead, List.takeWhile_cons, List.any_cons]
        | cons b bs =>
          simp [listenRun, isTermRead, okNonEmptyBytes, List.takeWhile_cons,
            List.any_cons, List.filterMap_cons, ih]
      | wouldBlock =>
        simp [listenRun, isTermRead, okNonEmptyBytes, List.takeWhile_cons,
          List.any_cons, List.filterMap_cons, ih]
      | readErr =>
        simp [listenRun, isTermRead, List.takeWhile_cons, List.any_cons]

/-! ## The cursor column (claim C7) -/

/-- C7 counterexample: in the initial input state the code reports column 10
(`prompt.len() = 12` bytes, `12 + 0 - 2`), while the specified formula
`p + min(cursor, visible) - 1` with display prompt width `p = 10` and cursor 0
yields 9 whatever the visible window length is (checked for all lengths up to 255):
the claimed formula never matches the code here. -/
theorem cursor_x_cex :
    Input.get_cursor_x_position Input.new = 10 ∧
    ((List.range 256).all fun vwl => specCursorX 10 0 vwl != 10) = true := by
  constructor
  · decide
  · decide

/-- C7, amended: the reported cursor column is the prompt's byte length (12) plus
`cursor_position` minus 2 — i.e. the prompt's display width (10) plus the raw
cursor index, truncated to `u16`; there is no clamping to the visible window and
no reserved trailing cell. -/
theorem cursor_x_formula (s : Input) :
    s.get_cursor_x_position = (10 + s.cursor_position) % 65536 := by
  unfold Input.get_cursor_x_position
  have e : strBytes inputPrompt.data = 12 := by decide
  rw [e]
  congr 1
  omega

/-! ## The input invariant (claim C8) -/

/-- Preservation of the invariant by a single completed operation. -/
theorem inputInv_step (s s2 : Input) (hs : InputInv s) (op : InputOp)
    (h : applyInputOp s op = some s2) : InputInv s2 := by
  obtain ⟨hc, ho⟩ := hs
  cases op with
  | key k =>
    cases k with
    | Left => exact absurd h (by simp [applyInputOp, Input.handle_key])
    | Right => exact absurd h (by simp [applyInputOp, Input.handle_key])
    | End => exact absurd h (by simp [applyInputOp, Input.handle_key])
    | Delete => exact absurd h (by simp [applyInputOp, Input.handle_key])
    | Backspace => exact absurd h (by simp [applyInputOp, Input.handle_key])
    | Home =>
      simp only [applyInputOp, Input.handle_key, Option.some.injEq] at h
      subst h
      exact ⟨Nat.zero_le _, Nat.zero_le _⟩
    | Char c =>
      simp only [applyInputOp, Input.handle_key] at h
      split at h
      · simp only [Option.some.injEq] at h
        subst h
        constructor
        · simp
          omega
        · simp
          omega
      · split at h
        · simp only [Option.some.injEq] at h
          subst h
          constructor
          · simp
            omega
          · simp
            omega
        · simp only [Option.some.injEq] at h
          subst h
          exact ⟨hc, ho⟩
    | other =>
      simp only [applyInputOp, Input.handle_key, Option.some.injEq] at h
      subst h
      exact ⟨hc, ho⟩
  | drain =>
    simp only [applyInputOp, Input.drain_user_message, Option.some.injEq] at h
    split at h <;> subst h
    · exact ⟨hc, ho⟩
    · exact ⟨Nat.zero_le _, Nat.zero_le _⟩

/-- C8: every state reachable from the initial input state by a sequence of completed
Input State Machine operations (`handle_key` on any key, `drain_user_message`)
satisfies the InputBuffer invariant: `cursor_position ≤ input.length` and
`scroll_offset ≤ input.length`. -/
theorem input_ops_inv (ops : List InputOp) (s2 : Input)
    (h : runInputOps Input.new ops = some s2) : InputInv s2 := by
  have aux : ∀ (ops2 : List InputOp) (s s3 : Input), InputInv s →
      runInputOps s ops2 = some s3 → InputInv s3 := by
    intro ops2
    induction ops2 with
    | nil =>
      intro s s3 hs h2
      simp only [runInputOps, Option.some.injEq] at h2
      subst h2
      exact hs
    | cons op rest ih =>
      intro s s3 hs h2
      simp only [runInputOps] at h2
      cases hop : applyInputOp s op with
      | none =>
        rw [hop] at h2
        exact absurd h2 (by simp)
      | some s1 =>
        rw [hop] at h2
        exact ih s1 s3 (inputInv_step s s1 hs op hop) h2
  exact aux ops Input.new s2 ⟨Nat.le_refl 0, Nat.le_refl 0⟩ h

/-- C8 witness: after typing the hex digit `a` from the initial state, the invariant
holds of the reached state. -/
theorem input_ops_inv_witness :
    InputInv { input := ['a'], scroll_offset := 0, cursor_position := 1 } :=
  input_ops_inv [.key (.Char 'a')]
    { input := ['a'], scroll_offset := 0, cursor_position := 1 } (by decide)

/-! ## Argument handling (claim C5) -/

/-- C5, the code bug: `connect()` checks `args.len() < 2`, but `env::args()` includes
the program name, so invoking the program with exactly one positional argument that
parses as an IP address passes the check and reaches the out-of-bounds `args[2]` —
a panic, not an initialization error, contradicting the code's own message
"You must supply at least 2 arguments (IP Address and Port)". -/
theorem connect_one_arg_panics {α : Type} (parseIp : String → Option α)
    (parsePort : String → Option Nat) (prog ipArg : String) (ip : α)
    (h : parseIp ipArg = some ip) :
    connect parseIp parsePort [prog, ipArg] = .panicked := by
  simp [connect, h]

/-- C5 witness: `hexcat 127.0.0.1` panics during argument handling. -/
theorem connect_one_arg_panics_witness :
    connect (fun s => some s) (fun _ => some 0) ["hexcat", "127.0.0.1"] =
      ConnectOutcome.panicked :=
  connect_one_arg_panics (fun s => some s) (fun _ => some 0) "hexcat" "127.0.0.1"
    "127.0.0.1" rfl
